import Mathlib

/-!
# video-compare: the bounded hand-off queue and the timestamp reconciler

A shallow embedding of `src/queue.h` (`Queue<T>`) and of the timestamp logic of
`VideoDecoder::receive` in `src/video_decoder.cpp`, with the properties the
specification states about them.

## How the queue is embedded

Every member function of `Queue<T>` that touches `queue_` takes `mutex_` first, so
the object evolves by critical sections.  `push` and `pop` are `while` loops whose
body either returns or calls `wait` on a condition variable; `wait` releases the
mutex, and the thread re-enters the loop at its head when woken.  One evaluation of
the loop from its head up to `return` or `wait` is therefore one atomic step, and it
is what `Queue.push` and `Queue.pop` below compute: the new queue and an `Outcome`
that is either `returned b` or `waits` (the caller is suspended, the state is
untouched, and the same step is taken again after a wake-up).  The condition
variables carry no data and are not part of the state.

## How the reconciler is embedded

`int64_t` values are the `Int`s between `INT64_MIN` and `INT64_MAX`.  The results of
the `int64_t` operations whose value can leave that range (the difference of line 148,
the difference, the `abs` and the product of line 151, the sum of line 160) are
reduced by `wrap64`, the two's-complement wrap-around of the compiled code.  The
comparison `(next_pts_ + 1) == avframe_pts` of line 140 is written without it: for
`int64_t` operands it has the same outcome (`assigned_pts_wrap`).  `/` on `int64_t`
truncates towards zero and is `Int.tdiv`.  The value of
`av_rescale_q(1, av_inv_q(demuxer->guess_frame_rate(frame)), demuxer->time_base())`
comes from FFmpeg and the demuxer and is an input of `receive`.
-/

namespace VideoCompare

/-! ## `Queue<T>` (src/queue.h) -/

/-- The data members of `Queue<T>`: the `std::queue` (front of the queue = head of
the list), the capacity and the two exit flags. -/
structure Queue (T : Type) where
  queue_ : List T
  size_max_ : Nat
  quit_ : Bool
  finished_ : Bool
deriving DecidableEq, Repr

/-- What a call does at the end of one pass through its loop: it returns a boolean,
or it calls `wait` and stays suspended. -/
inductive Outcome where
  | returned (b : Bool)
  | waits
deriving DecidableEq, Repr

namespace Queue

variable {T : Type}

/-- The constructor `Queue(size_t size_max)`: empty queue, both flags false. -/
def new (size_max : Nat) : Queue T :=
  { queue_ := [], size_max_ := size_max, quit_ := false, finished_ := false }

/-- One pass of `Queue<T>::push` (queue.h 44-59). -/
def push (q : Queue T) (data : T) : Queue T × Outcome :=
  if !q.quit_ && !q.finished_ then
    if q.queue_.length < q.size_max_ then
      ({ q with queue_ := q.queue_ ++ [data] }, Outcome.returned true)
    else
      (q, Outcome.waits)
  else
    (q, Outcome.returned false)

/-- One pass of `Queue<T>::pop` (queue.h 61-80).  `data` is the caller's variable
behind the out-parameter; the second component is its content after the pass. -/
def pop (q : Queue T) (data : T) : Queue T × T × Outcome :=
  if !q.quit_ then
    match q.queue_ with
    | front :: rest => ({ q with queue_ := rest }, front, Outcome.returned true)
    | [] =>
      if q.finished_ then (q, data, Outcome.returned false)
      else (q, data, Outcome.waits)
  else
    (q, data, Outcome.returned false)

/-- The member `Queue<T>::is_finished` (queue.h 82-85). -/
def is_finished (q : Queue T) : Bool := q.finished_

/-- The member `Queue<T>::finished` (queue.h 87-91). -/
def finished (q : Queue T) : Queue T := { q with finished_ := true }

/-- The member `Queue<T>::quit` (queue.h 93-98). -/
def quit (q : Queue T) : Queue T := { q with quit_ := true }

/-- The loop `while (!queue_.empty()) { queue_.pop(); }` of `Queue<T>::empty`, run
for at most `fuel` iterations. -/
def empty_loop : Nat → Queue T → Queue T
  | 0, q => q
  | fuel + 1, q =>
    if !q.queue_.isEmpty then empty_loop fuel { q with queue_ := q.queue_.tail }
    else q

/-- The member `Queue<T>::empty` (queue.h 100-109).  Every iteration of its loop
removes one item, so `queue_.size()` iterations are all it can take. -/
def empty (q : Queue T) : Queue T := empty_loop q.queue_.length q

end Queue

/-- A call on the queue.  `pop` carries the content of the caller's variable
before the call. -/
inductive Op (T : Type) where
  | push (data : T)
  | pop (data : T)
  | is_finished
  | finished
  | quit
  | empty
deriving DecidableEq, Repr

/-- The queue after one step of the call `op`. -/
def Queue.step {T : Type} (q : Queue T) : Op T → Queue T
  | Op.push data => (q.push data).1
  | Op.pop data => (q.pop data).1
  | Op.is_finished => q
  | Op.finished => q.finished
  | Op.quit => q.quit
  | Op.empty => q.empty

/-- A queue together with its history: the items whose `push` returned true and
the items written by the `pop`s that returned true, both oldest first. -/
structure History (T : Type) where
  q : Queue T
  accepted : List T
  delivered : List T
deriving DecidableEq, Repr

/-- One step of `op`, recording an accepted push and a delivered pop. -/
def History.step {T : Type} (h : History T) (op : Op T) : History T :=
  match op with
  | Op.push data =>
    match h.q.push data with
    | (q, Outcome.returned true) => { h with q := q, accepted := h.accepted ++ [data] }
    | (q, _) => { h with q := q }
  | Op.pop data =>
    match h.q.pop data with
    | (q, item, Outcome.returned true) => { h with q := q, delivered := h.delivered ++ [item] }
    | (q, _, _) => { h with q := q }
  | op => { h with q := h.q.step op }

/-- The history of a freshly constructed queue. -/
def History.new {T : Type} (size_max : Nat) : History T :=
  { q := Queue.new size_max, accepted := [], delivered := [] }

/-- Repeated `pop` into the same variable: the queue and the variable after the
calls, and for each call its outcome and the variable's content after it. -/
def Queue.pops {T : Type} (q : Queue T) (data : T) : Nat → Queue T × T × List (Outcome × T)
  | 0 => (q, data, [])
  | n + 1 =>
    match q.pop data with
    | (q1, data1, r) =>
      match Queue.pops q1 data1 n with
      | (q2, data2, rs) => (q2, data2, (r, data1) :: rs)

/-! ## `VideoDecoder::receive` (src/video_decoder.cpp 129-166) -/

/-- The least `int64_t`. -/
def INT64_MIN : Int := -9223372036854775808

/-- The greatest `int64_t`. -/
def INT64_MAX : Int := 9223372036854775807

/-- The `int64_t` that 64-bit two's-complement arithmetic stores for the integer `x`:
`x` itself when it is between `INT64_MIN` and `INT64_MAX`, and `x` shifted by a
multiple of `2^64` into that range otherwise. -/
def wrap64 (x : Int) : Int :=
  (x + 9223372036854775808) % 18446744073709551616 - 9223372036854775808

/-- FFmpeg's `AV_NOPTS_VALUE`, `(int64_t)UINT64_C(0x8000000000000000)`: the
"unknown timestamp" value. -/
def AV_NOPTS_VALUE : Int := -9223372036854775808

/-- The fields of an `AVFrame` that `receive` reads or writes.  `duration` is the
field behind `ffmpeg::frame_duration(frame)`; zero means unset. -/
structure AVFrame where
  pts : Int
  best_effort_timestamp : Int
  key_frame : Bool
  duration : Int
deriving DecidableEq, Repr

/-- The data members of `VideoDecoder` that `receive` reads or writes. -/
structure VideoDecoder where
  trust_decoded_pts_ : Bool
  first_pts_ : Int
  next_pts_ : Int
  previous_pts_ : Int
deriving DecidableEq, Repr

namespace VideoDecoder

/-- The state the constructor leaves (video_decoder.cpp 24-25 and 89):
`first_pts_` and `next_pts_` are `AV_NOPTS_VALUE`, `trust_decoded_pts_` is the
`trust_dec_pts` option, and `previous_pts_` is absent from the initialiser list, so
it holds whatever value `previous_pts` stands for. -/
def new (trust_dec_pts : Bool) (previous_pts : Int) : VideoDecoder :=
  { trust_decoded_pts_ := trust_dec_pts, first_pts_ := AV_NOPTS_VALUE,
    next_pts_ := AV_NOPTS_VALUE, previous_pts_ := previous_pts }

/-- The local `use_avframe_state` (video_decoder.cpp 136). -/
def use_avframe_state (d : VideoDecoder) (frame : AVFrame) : Bool :=
  d.trust_decoded_pts_ || d.next_pts_ == AV_NOPTS_VALUE || frame.key_frame
    || frame.pts == d.first_pts_

/-- The local `avframe_pts` (video_decoder.cpp 137). -/
def avframe_pts (frame : AVFrame) : Int :=
  if frame.pts ≠ AV_NOPTS_VALUE then frame.pts
  else if frame.best_effort_timestamp ≠ AV_NOPTS_VALUE then frame.best_effort_timestamp
  else 0

/-- The timestamp `receive` writes to `frame->pts` (video_decoder.cpp 140).  For
`int64_t` operands the test `next_pts_ + 1 == avframe_pts` has the same outcome with
and without 64-bit wrap-around. -/
def assigned_pts (d : VideoDecoder) (frame : AVFrame) : Int :=
  if d.use_avframe_state frame || d.next_pts_ + 1 == avframe_pts frame then avframe_pts frame
  else d.next_pts_

/-- The duration `receive` leaves in the frame (video_decoder.cpp 143-156).
`estimate` is the value of
`av_rescale_q(1, av_inv_q(demuxer->guess_frame_rate(frame)), demuxer->time_base())`.
The difference of line 148 and the difference, `abs` and product of line 151 are
`int64_t` operations and wrap. -/
def assigned_duration (d : VideoDecoder) (frame : AVFrame) (estimate : Int) : Int :=
  if frame.duration == 0 then
    if !d.use_avframe_state frame then
      let avframe_delta_pts := wrap64 (avframe_pts frame - d.previous_pts_)
      if wrap64 |wrap64 (estimate - avframe_delta_pts)| ≤ Int.tdiv (wrap64 (estimate * 20)) 100
      then avframe_delta_pts
      else estimate
    else estimate
  else frame.duration

/-- The timestamp part of `VideoDecoder::receive` once a frame has been decoded
(video_decoder.cpp 136-160): the decoder afterwards and the rewritten frame.  The sum
of line 160 is an `int64_t` operation and wraps. -/
def receive (d : VideoDecoder) (frame : AVFrame) (estimate : Int) : VideoDecoder × AVFrame :=
  let pts := d.assigned_pts frame
  let duration := d.assigned_duration frame estimate
  ({ d with
      first_pts_ := if d.first_pts_ == AV_NOPTS_VALUE then avframe_pts frame else d.first_pts_,
      previous_pts_ := avframe_pts frame,
      next_pts_ := wrap64 (pts + duration) },
   { frame with pts := pts, duration := duration })

/-- A stream of decoded frames, each with the estimate the demuxer gives for it,
received in order: the decoder afterwards and the rewritten frames. -/
def receiveAll (d : VideoDecoder) : List (AVFrame × Int) → VideoDecoder × List AVFrame
  | [] => (d, [])
  | (frame, estimate) :: rest =>
    match d.receive frame estimate with
    | (d1, out) =>
      match receiveAll d1 rest with
      | (d2, outs) => (d2, out :: outs)

end VideoDecoder

/-- A frame without source timestamp, best-effort timestamp and duration. -/
def AVFrame.blank (key_frame : Bool) : AVFrame :=
  { pts := AV_NOPTS_VALUE, best_effort_timestamp := AV_NOPTS_VALUE, key_frame := key_frame,
    duration := 0 }

/-! ## The queue: capacity, order, shutdown -/

section QueueLemmas

variable {T : Type}

theorem Queue.push_size_max (q : Queue T) (x : T) : (q.push x).1.size_max_ = q.size_max_ := by
  unfold Queue.push
  split_ifs <;> rfl

theorem Queue.pop_size_max (q : Queue T) (d : T) : (q.pop d).1.size_max_ = q.size_max_ := by
  rcases q with ⟨items, size_max, quit, fin⟩
  cases quit <;> cases fin <;> cases items <;> rfl

theorem Queue.empty_loop_eq (fuel : Nat) :
    ∀ q : Queue T, q.queue_.length ≤ fuel → Queue.empty_loop fuel q = { q with queue_ := [] } := by
  induction fuel with
  | zero =>
    intro q h
    rcases q with ⟨items, size_max, quit, fin⟩
    cases items with
    | nil => rfl
    | cons a l => simp at h
  | succ n ih =>
    intro q h
    rcases q with ⟨items, size_max, quit, fin⟩
    cases items with
    | nil => rfl
    | cons a l =>
      have hl : l.length ≤ n := by simpa using h
      simpa [Queue.empty_loop] using ih ⟨l, size_max, quit, fin⟩ hl

theorem Queue.empty_eq (q : Queue T) : q.empty = { q with queue_ := [] } :=
  Queue.empty_loop_eq q.queue_.length q le_rfl

theorem Queue.step_size_max (q : Queue T) (op : Op T) : (q.step op).size_max_ = q.size_max_ := by
  cases op <;> simp [Queue.step, Queue.push_size_max, Queue.pop_size_max, Queue.finished,
    Queue.quit, Queue.empty_eq]

theorem Queue.push_length_le (q : Queue T) (x : T) (h : q.queue_.length ≤ q.size_max_) :
    (q.push x).1.queue_.length ≤ q.size_max_ := by
  unfold Queue.push
  split_ifs with h1 h2
  · simpa using h2
  · exact h
  · exact h

theorem Queue.pop_length_le (q : Queue T) (d : T) :
    (q.pop d).1.queue_.length ≤ q.queue_.length := by
  rcases q with ⟨items, size_max, quit, fin⟩
  cases quit <;> cases fin <;> cases items <;> simp [Queue.pop]

theorem Queue.step_length_le (q : Queue T) (op : Op T) (h : q.queue_.length ≤ q.size_max_) :
    (q.step op).queue_.length ≤ q.size_max_ := by
  cases op with
  | push x => exact Queue.push_length_le q x h
  | pop d => exact le_trans (Queue.pop_length_le q d) h
  | is_finished => exact h
  | finished => exact h
  | quit => exact h
  | empty => simp [Queue.step, Queue.empty_eq]

theorem Queue.scanl_step_bounded (ops : List (Op T)) :
    ∀ q : Queue T, q.queue_.length ≤ q.size_max_ →
      ∀ s ∈ List.scanl Queue.step q ops,
        s.queue_.length ≤ q.size_max_ ∧ s.size_max_ = q.size_max_ := by
  induction ops with
  | nil =>
    intro q h s hs
    simp at hs
    subst hs
    exact ⟨h, rfl⟩
  | cons op rest ih =>
    intro q h s hs
    rw [List.scanl_cons, List.singleton_append, List.mem_cons] at hs
    rcases hs with hs | hs
    · subst hs
      exact ⟨h, rfl⟩
    · have hstep := Queue.step_length_le q op h
      rw [← Queue.step_size_max q op] at hstep
      have := ih (q.step op) hstep s hs
      rw [Queue.step_size_max q op] at this
      exact this

end QueueLemmas

/-- C1. Capacity invariant: on a queue constructed with `size_max = C`, after every
prefix of every sequence of calls (push, pop, is_finished, finished, quit, empty)
at most `C` items are resident and the capacity is still `C`; and a pass of `push`
that enqueues (the queue grows) started from a size strictly below the capacity. -/
theorem capacity_invariant {T : Type} (C : Nat) (ops : List (Op T)) (q : Queue T) (x : T) :
    (∀ s ∈ List.scanl Queue.step (Queue.new C) ops, s.queue_.length ≤ C ∧ s.size_max_ = C) ∧
    ((q.push x).1.queue_ ≠ q.queue_ → q.queue_.length < q.size_max_) ∧
    ((q.push x).2 = Outcome.returned true → q.queue_.length < q.size_max_) := by
  refine ⟨?_, ?_, ?_⟩
  · exact Queue.scanl_step_bounded ops (Queue.new C) (Nat.zero_le _)
  · unfold Queue.push
    split_ifs with h1 h2
    · intro _; exact h2
    · intro h; exact absurd rfl h
    · intro h; exact absurd rfl h
  · unfold Queue.push
    split_ifs with h1 h2
    · intro _; exact h2
    · intro h; cases h
    · intro h; cases h

section QueueOrder

variable {T : Type}

theorem History.step_q (h : History T) (op : Op T) : (h.step op).q = h.q.step op := by
  rcases h with ⟨⟨items, size_max, quit, fin⟩, acc, del⟩
  cases op with
  | push x =>
    by_cases hlt : items.length < size_max <;>
      cases quit <;> cases fin <;> simp [History.step, Queue.step, Queue.push, hlt]
  | pop d =>
    cases quit <;> cases fin <;> cases items <;> simp [History.step, Queue.step, Queue.pop]
  | is_finished => rfl
  | finished => rfl
  | quit => rfl
  | empty => rfl

theorem History.step_fifo (h : History T) (op : Op T) (hop : op ≠ Op.empty)
    (inv : h.accepted = h.delivered ++ h.q.queue_) :
    (h.step op).accepted = (h.step op).delivered ++ (h.step op).q.queue_ := by
  rcases h with ⟨⟨items, size_max, quit, fin⟩, acc, del⟩
  simp only at inv
  cases op with
  | push x =>
    by_cases hlt : items.length < size_max <;>
      cases quit <;> cases fin <;> simp [History.step, Queue.push, hlt, inv]
  | pop d =>
    cases quit <;> cases fin <;> cases items <;> simp [History.step, Queue.pop, inv]
  | is_finished => simpa [History.step, Queue.step] using inv
  | finished => simpa [History.step, Queue.step, Queue.finished] using inv
  | quit => simpa [History.step, Queue.step, Queue.quit] using inv
  | empty => exact absurd rfl hop

theorem History.scanl_fifo (ops : List (Op T)) (hops : ∀ op ∈ ops, op ≠ Op.empty) :
    ∀ h0 : History T, h0.accepted = h0.delivered ++ h0.q.queue_ →
      ∀ h ∈ List.scanl History.step h0 ops, h.accepted = h.delivered ++ h.q.queue_ := by
  induction ops with
  | nil =>
    intro h0 inv h hmem
    simp at hmem
    subst hmem
    exact inv
  | cons op rest ih =>
    intro h0 inv h hmem
    rw [List.scanl_cons, List.singleton_append, List.mem_cons] at hmem
    rcases hmem with hmem | hmem
    · subst hmem
      exact inv
    · have hop : op ≠ Op.empty := hops op (List.mem_cons_self _ _)
      exact ih (fun o ho => hops o (List.mem_cons_of_mem _ ho)) (h0.step op)
        (History.step_fifo h0 op hop inv) h hmem

theorem Queue.pops_finished (items : List T) :
    ∀ (data : T) (size_max : Nat),
      Queue.pops ⟨items, size_max, false, true⟩ data (items.length + 1) =
        (⟨[], size_max, false, true⟩, items.getLast?.getD data,
          items.map (fun x => (Outcome.returned true, x))
            ++ [(Outcome.returned false, items.getLast?.getD data)]) := by
  induction items with
  | nil =>
    intro data size_max
    rfl
  | cons x xs ih =>
    intro data size_max
    have hlast : (x :: xs).getLast?.getD data = xs.getLast?.getD x := by
      cases xs with
      | nil => rfl
      | cons y ys =>
        rw [List.getLast?_cons_cons, List.getLast?_eq_getLast _ (List.cons_ne_nil y ys)]
        rfl
    have hpop : Queue.pop ⟨x :: xs, size_max, false, true⟩ data =
        (⟨xs, size_max, false, true⟩, x, Outcome.returned true) := rfl
    rw [List.length_cons, Queue.pops, hpop]
    simp only [ih x size_max, hlast, List.map_cons, List.cons_append]

end QueueOrder

/-- C2. FIFO: on a freshly constructed queue driven by any sequence of calls that
never clears it (no `empty`) and never quits (no `quit`), at every point of the run
the items accepted by the pushes that returned true are exactly the items delivered
by the pops that returned true followed by the items still queued; so the delivered
sequence is a prefix of the accepted sequence, in the same order. -/
theorem fifo_order {T : Type} (C : Nat) (ops : List (Op T))
    (hops : ∀ op ∈ ops, op ≠ Op.empty ∧ op ≠ Op.quit)
    (h : History T) (hmem : h ∈ List.scanl History.step (History.new C) ops) :
    h.accepted = h.delivered ++ h.q.queue_ ∧ h.delivered <+: h.accepted := by
  have key := History.scanl_fifo ops (fun op ho => (hops op ho).1) (History.new C) rfl h hmem
  exact ⟨key, ⟨h.q.queue_, key.symm⟩⟩

/-- C2 at a concrete run: capacity 2, push 1, push 2, push 3 (waits), pop, push 3,
pop; the pops delivered 1 then 2 and 3 is still queued. -/
theorem fifo_order_witness :
    ([1, 2, 3] : List Nat) = [1, 2] ++ [3] ∧ ([1, 2] : List Nat) <+: [1, 2, 3] :=
  fifo_order 2 [Op.push 1, Op.push 2, Op.push 3, Op.pop 0, Op.push 3, Op.pop 0]
    (by decide) ⟨⟨[3], 2, false, false⟩, [1, 2, 3], [1, 2]⟩ (by decide)

/-- C3. Graceful drain: on a queue holding `x1..xn` with `finished_` set and `quit_`
unset, `n + 1` successive passes of `pop` never wait: the first `n` return true and
write `x1, ..., xn` in that order, the last returns false and leaves the variable as
it was, and the queue ends empty with its flags and capacity unchanged.  And a pass of
`pop` on any queue with `quit_` unset and an item queued does not return false. -/
theorem graceful_drain {T : Type} (q : Queue T) (data : T)
    (hfin : q.finished_ = true) (hquit : q.quit_ = false) :
    q.pops data (q.queue_.length + 1) =
      ({ q with queue_ := [] }, q.queue_.getLast?.getD data,
        q.queue_.map (fun x => (Outcome.returned true, x))
          ++ [(Outcome.returned false, q.queue_.getLast?.getD data)]) ∧
    (∀ (q2 : Queue T) (d2 : T), q2.quit_ = false → q2.queue_ ≠ [] →
      (q2.pop d2).2.2 ≠ Outcome.returned false) := by
  constructor
  · rcases q with ⟨items, size_max, quit, fin⟩
    simp only at hfin hquit
    subst hfin hquit
    exact Queue.pops_finished items data size_max
  · intro q2 d2 hq hne
    rcases q2 with ⟨items, size_max, quit, fin⟩
    simp only at hq hne
    subst hq
    cases items with
    | nil => exact absurd rfl hne
    | cons a l => simp [Queue.pop]

/-- C3 on the finished queue holding 7, 8, 9 with capacity 5: three pops deliver 7,
8, 9 and the fourth returns false. -/
theorem graceful_drain_witness :
    Queue.pops (⟨[7, 8, 9], 5, false, true⟩ : Queue Nat) 0 4 =
      (⟨[], 5, false, true⟩, 9,
        [(Outcome.returned true, 7), (Outcome.returned true, 8), (Outcome.returned true, 9),
          (Outcome.returned false, 9)]) :=
  (graceful_drain (⟨[7, 8, 9], 5, false, true⟩ : Queue Nat) 0 rfl rfl).1

/-- C4. Abort precedence: once `quit_` is set, whatever the items, the capacity and
`finished_`, a pass of `push` returns false and a pass of `pop` returns false; neither
waits, the queue is left exactly as it was, and `pop` does not write its variable. -/
theorem abort_precedence {T : Type} (q : Queue T) (x data : T) (hquit : q.quit_ = true) :
    q.push x = (q, Outcome.returned false) ∧ q.pop data = (q, data, Outcome.returned false) := by
  constructor
  · simp [Queue.push, hquit]
  · simp [Queue.pop, hquit]

/-- C4 on a queue with an item queued and a free slot, `quit_` set. -/
theorem abort_precedence_witness :
    Queue.push (⟨[1], 2, true, false⟩ : Queue Nat) 5 = (⟨[1], 2, true, false⟩, Outcome.returned false)
      ∧ Queue.pop (⟨[1], 2, true, false⟩ : Queue Nat) 0
          = (⟨[1], 2, true, false⟩, 0, Outcome.returned false) :=
  abort_precedence ⟨[1], 2, true, false⟩ 5 0 rfl

/-- C5. Push after graceful shutdown: with `finished_` set a pass of `push` returns
false, does not wait and leaves the queue exactly as it was, free capacity or not;
and a pass of `push` on any queue returns true only if neither `quit_` nor
`finished_` is set. -/
theorem push_after_finished {T : Type} (q : Queue T) (x : T) (hfin : q.finished_ = true) :
    q.push x = (q, Outcome.returned false) ∧
    (∀ (q2 : Queue T) (x2 : T), (q2.push x2).2 = Outcome.returned true →
      q2.quit_ = false ∧ q2.finished_ = false) := by
  constructor
  · simp [Queue.push, hfin]
  · intro q2 x2
    rcases q2 with ⟨items, size_max, quit, fin⟩
    by_cases hlt : items.length < size_max <;>
      cases quit <;> cases fin <;> simp [Queue.push, hlt]

/-- C5 on an empty finished queue of capacity 3. -/
theorem push_after_finished_witness :
    Queue.push (⟨[], 3, false, true⟩ : Queue Nat) 5 = (⟨[], 3, false, true⟩, Outcome.returned false) :=
  (push_after_finished ⟨[], 3, false, true⟩ 5 rfl).1

/-- C6. Backpressure: on a queue with neither `finished_` nor `quit_` set, a pass of
`push` returns true exactly when the size is below the capacity, and then the item is
appended at the back; otherwise it waits and changes nothing.  On a full queue (of
the positive capacity the data model prescribes) a pass of `pop` removes and writes the
front item and returns true, after which one pass of `push` completes and the next
one waits again.  The capacity-2 scenario: push A, push B return true, push C waits,
pop delivers A, push C now returns true, pop delivers B, pop delivers C, and after
`finished()` pop returns false. -/
theorem backpressure {T : Type} (q : Queue T) (x y z data : T)
    (hquit : q.quit_ = false) (hfin : q.finished_ = false) :
    ((q.push x).2 = Outcome.returned true ↔ q.queue_.length < q.size_max_) ∧
    (q.queue_.length < q.size_max_ →
      q.push x = ({ q with queue_ := q.queue_ ++ [x] }, Outcome.returned true)) ∧
    (¬ q.queue_.length < q.size_max_ → q.push x = (q, Outcome.waits)) ∧
    (q.queue_.length = q.size_max_ → 0 < q.size_max_ →
      ∃ front rest, q.queue_ = front :: rest ∧
        q.pop data = ({ q with queue_ := rest }, front, Outcome.returned true) ∧
        Queue.push { q with queue_ := rest } y
          = ({ q with queue_ := rest ++ [y] }, Outcome.returned true) ∧
        Queue.push { q with queue_ := rest ++ [y] } z
          = ({ q with queue_ := rest ++ [y] }, Outcome.waits)) ∧
    ((Queue.new 2 : Queue Char).push 'A' = (⟨['A'], 2, false, false⟩, Outcome.returned true) ∧
      Queue.push ⟨['A'], 2, false, false⟩ 'B'
        = (⟨['A', 'B'], 2, false, false⟩, Outcome.returned true) ∧
      Queue.push ⟨['A', 'B'], 2, false, false⟩ 'C'
        = (⟨['A', 'B'], 2, false, false⟩, Outcome.waits) ∧
      Queue.pop ⟨['A', 'B'], 2, false, false⟩ '0'
        = (⟨['B'], 2, false, false⟩, 'A', Outcome.returned true) ∧
      Queue.push ⟨['B'], 2, false, false⟩ 'C'
        = (⟨['B', 'C'], 2, false, false⟩, Outcome.returned true) ∧
      Queue.pop ⟨['B', 'C'], 2, false, false⟩ 'A'
        = (⟨['C'], 2, false, false⟩, 'B', Outcome.returned true) ∧
      Queue.pop ⟨['C'], 2, false, false⟩ 'B'
        = (⟨[], 2, false, false⟩, 'C', Outcome.returned true) ∧
      Queue.finished ⟨([] : List Char), 2, false, false⟩ = ⟨[], 2, false, true⟩ ∧
      Queue.pop ⟨[], 2, false, true⟩ 'C' = (⟨[], 2, false, true⟩, 'C', Outcome.returned false)) := by
  rcases q with ⟨items, size_max, quit, fin⟩
  simp only at hquit hfin
  subst hquit hfin
  refine ⟨?_, ?_, ?_, ?_, ?_⟩
  · by_cases hlt : items.length < size_max <;> simp [Queue.push, hlt]
  · intro hlt
    simp [Queue.push, hlt]
  · intro hlt
    simp [Queue.push, hlt]
  · intro hfull hpos
    simp only at hfull hpos
    cases items with
    | nil =>
      simp only [List.length_nil] at hfull
      omega
    | cons front rest =>
      simp only [List.length_cons] at hfull
      refine ⟨front, rest, rfl, rfl, ?_, ?_⟩
      · have hlt : rest.length < size_max := by omega
        simp [Queue.push, hlt]
      · have hge : ¬ (rest ++ [y]).length < size_max := by
          simp only [List.length_append, List.length_singleton]
          omega
        simp only [Queue.push, hge]
        rfl
  · exact ⟨rfl, rfl, rfl, rfl, rfl, rfl, rfl, rfl, rfl⟩

/-- C6 on a full queue of capacity 2: push waits, pop delivers the front item, then
exactly one push gets through. -/
theorem backpressure_witness :
    Queue.push (⟨[1, 2], 2, false, false⟩ : Queue Nat) 3 = (⟨[1, 2], 2, false, false⟩, Outcome.waits) ∧
    ∃ front rest, ([1, 2] : List Nat) = front :: rest ∧
      Queue.pop (⟨[1, 2], 2, false, false⟩ : Queue Nat) 0
        = (⟨rest, 2, false, false⟩, front, Outcome.returned true) ∧
      Queue.push (⟨rest, 2, false, false⟩ : Queue Nat) 3
        = (⟨rest ++ [3], 2, false, false⟩, Outcome.returned true) ∧
      Queue.push (⟨rest ++ [3], 2, false, false⟩ : Queue Nat) 4
        = (⟨rest ++ [3], 2, false, false⟩, Outcome.waits) :=
  ⟨(backpressure (⟨[1, 2], 2, false, false⟩ : Queue Nat) 3 3 4 0 rfl rfl).2.2.1 (by decide),
    (backpressure (⟨[1, 2], 2, false, false⟩ : Queue Nat) 3 3 4 0 rfl rfl).2.2.2.1 rfl
      (by decide)⟩

/-- C7. Clearing: after `Queue<T>::empty` the queue holds no item, and `finished_`,
`quit_` and the capacity are what they were before. -/
theorem empty_clears_items_only {T : Type} (q : Queue T) :
    q.empty.queue_ = [] ∧ q.empty.finished_ = q.finished_ ∧ q.empty.quit_ = q.quit_ ∧
      q.empty.size_max_ = q.size_max_ := by
  rw [Queue.empty_eq]
  exact ⟨rfl, rfl, rfl, rfl⟩

/-! ## The reconciler: trusted, clean and missing timestamps -/

section WrapLemmas

theorem wrap64_eq (x : Int) (hlo : INT64_MIN ≤ x) (hhi : x ≤ INT64_MAX) : wrap64 x = x := by
  unfold INT64_MIN at hlo
  unfold INT64_MAX at hhi
  unfold wrap64
  omega

theorem wrap64_range (x : Int) : INT64_MIN ≤ wrap64 x ∧ wrap64 x ≤ INT64_MAX := by
  unfold INT64_MIN INT64_MAX wrap64
  omega

/-- Truncating division by 100 of a value that is at most `INT64_MAX`. -/
theorem tdiv_hundred_le (x : Int) (h : x ≤ INT64_MAX) : Int.tdiv x 100 ≤ 92233720368547758 := by
  unfold INT64_MAX at h
  rcases le_or_lt 0 x with h0 | h0
  · rw [Int.tdiv_eq_ediv h0 (by omega)]
    omega
  · have h1 : x = -(-x) := by ring
    have h2 : Int.tdiv x 100 ≤ 0 := by
      rw [h1, Int.neg_tdiv, Int.tdiv_eq_ediv (by omega) (by omega)]
      omega
    omega

end WrapLemmas

section ReceiveLemmas

theorem VideoDecoder.receive_trust (d : VideoDecoder) (frame : AVFrame) (estimate : Int) :
    (d.receive frame estimate).1.trust_decoded_pts_ = d.trust_decoded_pts_ := rfl

theorem VideoDecoder.receiveAll_cons (d : VideoDecoder) (frame : AVFrame) (estimate : Int)
    (rest : List (AVFrame × Int)) :
    d.receiveAll ((frame, estimate) :: rest) =
      (((d.receive frame estimate).1.receiveAll rest).1,
        (d.receive frame estimate).2 :: ((d.receive frame estimate).1.receiveAll rest).2) := rfl

theorem VideoDecoder.avframe_pts_of_present (frame : AVFrame) (h : frame.pts ≠ AV_NOPTS_VALUE) :
    VideoDecoder.avframe_pts frame = frame.pts := by
  simp [VideoDecoder.avframe_pts, h]

theorem VideoDecoder.receive_trusted_pts (d : VideoDecoder) (frame : AVFrame) (estimate : Int)
    (htrust : d.trust_decoded_pts_ = true) (hpts : frame.pts ≠ AV_NOPTS_VALUE) :
    (d.receive frame estimate).2.pts = frame.pts := by
  simp [VideoDecoder.receive, VideoDecoder.assigned_pts, VideoDecoder.use_avframe_state, htrust,
    VideoDecoder.avframe_pts_of_present frame hpts]

theorem VideoDecoder.receiveAll_trusted_pts (inputs : List (AVFrame × Int)) :
    ∀ d : VideoDecoder, d.trust_decoded_pts_ = true →
      (∀ i ∈ inputs, i.1.pts ≠ AV_NOPTS_VALUE) →
      (d.receiveAll inputs).2.map AVFrame.pts = inputs.map (fun i => i.1.pts) := by
  induction inputs with
  | nil =>
    intro d _ _
    rfl
  | cons i rest ih =>
    intro d htrust hall
    rcases i with ⟨frame, estimate⟩
    have hpts : frame.pts ≠ AV_NOPTS_VALUE := hall (frame, estimate) (List.mem_cons_self _ _)
    rw [VideoDecoder.receiveAll_cons, List.map_cons, List.map_cons,
      VideoDecoder.receive_trusted_pts d frame estimate htrust hpts,
      ih (d.receive frame estimate).1 htrust (fun j hj => hall j (List.mem_cons_of_mem _ hj))]

/-- A frame with a present timestamp and a set duration, arriving when `next_pts_`
is unset or equal to that timestamp, is left as it is. -/
theorem VideoDecoder.receive_clean (d : VideoDecoder) (frame : AVFrame) (estimate : Int)
    (hpts : frame.pts ≠ AV_NOPTS_VALUE) (hdur : frame.duration ≠ 0)
    (hnext : d.next_pts_ = AV_NOPTS_VALUE ∨ d.next_pts_ = frame.pts) :
    (d.receive frame estimate).2 = frame ∧
      (d.receive frame estimate).1.next_pts_ = wrap64 (frame.pts + frame.duration) := by
  have hav := VideoDecoder.avframe_pts_of_present frame hpts
  have hp : d.assigned_pts frame = frame.pts := by
    unfold VideoDecoder.assigned_pts
    rw [hav]
    split_ifs
    · rfl
    · rcases hnext with h | h
      · rename_i hc
        simp [VideoDecoder.use_avframe_state, h] at hc
      · exact h
  have hd : d.assigned_duration frame estimate = frame.duration := by
    simp [VideoDecoder.assigned_duration, hdur]
  constructor
  · show ({ frame with pts := d.assigned_pts frame,
                       duration := d.assigned_duration frame estimate } : AVFrame) = frame
    rw [hp, hd]
  · show wrap64 (d.assigned_pts frame + d.assigned_duration frame estimate)
      = wrap64 (frame.pts + frame.duration)
    rw [hp, hd]

theorem VideoDecoder.receiveAll_clean (inputs : List (AVFrame × Int)) :
    ∀ d : VideoDecoder,
      (∀ i ∈ inputs, i.1.pts ≠ AV_NOPTS_VALUE ∧ i.1.duration ≠ 0) →
      (∀ i ∈ inputs, INT64_MIN ≤ i.1.pts ∧ i.1.pts ≤ INT64_MAX) →
      List.Chain' (fun a b : AVFrame × Int => a.1.pts < b.1.pts ∧ a.1.duration = b.1.pts - a.1.pts)
        inputs →
      (∀ i ∈ inputs.head?, d.next_pts_ = AV_NOPTS_VALUE ∨ d.next_pts_ = i.1.pts) →
      (d.receiveAll inputs).2 = inputs.map Prod.fst := by
  induction inputs with
  | nil =>
    intro d _ _ _ _
    rfl
  | cons i rest ih =>
    intro d hall hrange hchain hnext
    rcases i with ⟨frame, estimate⟩
    have hi := hall (frame, estimate) (List.mem_cons_self _ _)
    have hstep := VideoDecoder.receive_clean d frame estimate hi.1 hi.2
      (hnext (frame, estimate) (by simp))
    rw [VideoDecoder.receiveAll_cons, List.map_cons, hstep.1]
    show frame :: ((d.receive frame estimate).1.receiveAll rest).2 = frame :: rest.map Prod.fst
    congr 1
    apply ih (d.receive frame estimate).1 (fun j hj => hall j (List.mem_cons_of_mem _ hj))
      (fun j hj => hrange j (List.mem_cons_of_mem _ hj)) (List.Chain'.tail hchain)
    intro j hj
    right
    cases rest with
    | nil => simp at hj
    | cons k rest2 =>
      have hk := hrange k (List.mem_cons_of_mem _ (List.mem_cons_self _ _))
      simp only [List.head?_cons, Option.mem_def, Option.some.injEq] at hj
      subst hj
      have hrel := (List.chain'_cons.mp hchain).1
      simp only at hrel
      rw [hstep.2, hrel.2, add_sub_cancel]
      exact wrap64_eq _ hk.1 hk.2

end ReceiveLemmas

/-- C8. Trusted timestamps pass through: with `trust_decoded_pts_` set, whatever the
rest of the decoder's state, a frame whose `pts` is present leaves `receive` with that
same `pts`; hence for every stream of frames whose `pts` are all present (strictly
increasing or not) the timestamps written are the source timestamps, in order. -/
theorem trusted_pts_pass_through (d : VideoDecoder) (frame : AVFrame) (estimate : Int)
    (inputs : List (AVFrame × Int))
    (htrust : d.trust_decoded_pts_ = true) (hpts : frame.pts ≠ AV_NOPTS_VALUE)
    (hall : ∀ i ∈ inputs, i.1.pts ≠ AV_NOPTS_VALUE) :
    (d.receive frame estimate).2.pts = frame.pts ∧
      (d.receiveAll inputs).2.map AVFrame.pts = inputs.map (fun i => i.1.pts) :=
  ⟨VideoDecoder.receive_trusted_pts d frame estimate htrust hpts,
    VideoDecoder.receiveAll_trusted_pts inputs d htrust hall⟩

/-- C8 on a decoder in mid-stream (prediction 500) and frames stamped 1000, 4000,
7000 with no duration, estimate 3003. -/
theorem trusted_pts_pass_through_witness :
    (VideoDecoder.receive ⟨true, 0, 500, 400⟩ ⟨1000, 1000, false, 0⟩ 3003).2.pts = 1000 ∧
      (VideoDecoder.receiveAll ⟨true, 0, 500, 400⟩
          [(⟨1000, 1000, false, 0⟩, 3003), (⟨4000, 4000, false, 0⟩, 3003),
            (⟨7000, 7000, false, 0⟩, 3003)]).2.map AVFrame.pts
        = [1000, 4000, 7000] :=
  trusted_pts_pass_through ⟨true, 0, 500, 400⟩ ⟨1000, 1000, false, 0⟩ 3003
    [(⟨1000, 1000, false, 0⟩, 3003), (⟨4000, 4000, false, 0⟩, 3003),
      (⟨7000, 7000, false, 0⟩, 3003)]
    rfl (by decide) (by decide)

/-- C9. Clean input is a fixed point: from the constructor's state, for either value
of the trust option and whatever `previous_pts_` holds, a stream of frames with
present, strictly increasing `int64_t` `pts` and non-zero durations, each duration
equal to the gap to the next frame's `pts`, comes out unchanged frame by frame (timestamp and
duration in particular), whatever the key-frame flags and whatever the rate-based
estimates are; and for each of these frames the duration computed by lines 143-156 is
the frame's own in every decoder state: neither the estimate nor the observed delta
replaces it. -/
theorem clean_input_fixed_point (trust_dec_pts : Bool) (previous_pts : Int)
    (inputs : List (AVFrame × Int))
    (hpresent : ∀ i ∈ inputs, i.1.pts ≠ AV_NOPTS_VALUE ∧ i.1.duration ≠ 0)
    (hrange : ∀ i ∈ inputs, INT64_MIN ≤ i.1.pts ∧ i.1.pts ≤ INT64_MAX)
    (hgap : List.Chain'
      (fun a b : AVFrame × Int => a.1.pts < b.1.pts ∧ a.1.duration = b.1.pts - a.1.pts) inputs) :
    ((VideoDecoder.new trust_dec_pts previous_pts).receiveAll inputs).2 = inputs.map Prod.fst ∧
      ∀ i ∈ inputs, ∀ (d : VideoDecoder) (estimate : Int),
        d.assigned_duration i.1 estimate = i.1.duration := by
  refine ⟨VideoDecoder.receiveAll_clean inputs _ hpresent hrange hgap (fun _ _ => Or.inl rfl), ?_⟩
  intro i hi d estimate
  simp [VideoDecoder.assigned_duration, (hpresent i hi).2]

/-- C9 on three frames stamped 0, 3000, 6000 with durations 3000, 3000, 1234, the
estimate being 1 throughout and the first and last frames key frames. -/
theorem clean_input_fixed_point_witness :
    ((VideoDecoder.new false 77).receiveAll
        [(⟨0, 0, true, 3000⟩, 1), (⟨3000, 2999, false, 3000⟩, 1), (⟨6000, 6000, true, 1234⟩, 1)]).2
      = [⟨0, 0, true, 3000⟩, ⟨3000, 2999, false, 3000⟩, ⟨6000, 6000, true, 1234⟩] :=
  (clean_input_fixed_point false 77
    [(⟨0, 0, true, 3000⟩, 1), (⟨3000, 2999, false, 3000⟩, 1), (⟨6000, 6000, true, 1234⟩, 1)]
    (by decide) (by decide) (by simp)).1

section MissingLemmas

theorem VideoDecoder.avframe_pts_blank (key_frame : Bool) :
    VideoDecoder.avframe_pts (AVFrame.blank key_frame) = 0 := by
  simp [VideoDecoder.avframe_pts, AVFrame.blank]

theorem AVFrame.eq_blank (f : AVFrame)
    (h : f.pts = AV_NOPTS_VALUE ∧ f.best_effort_timestamp = AV_NOPTS_VALUE ∧ f.duration = 0) :
    f = AVFrame.blank f.key_frame := by
  rcases f with ⟨pts, best, key, dur⟩
  simp only at h
  rcases h with ⟨h1, h2, h3⟩
  subst h1 h2 h3
  rfl

/-- The 20% test rejects a zero delta against a positive estimate. -/
theorem VideoDecoder.zero_delta_rejected (D : Int) (hD : 0 < D) :
    ¬ |D| ≤ Int.tdiv (D * 20) 100 := by
  have h1 : Int.tdiv (D * 20) 100 = D * 20 / 100 :=
    Int.tdiv_eq_ediv (by omega) (by omega)
  rw [h1, abs_of_pos hD]
  omega

/-- Line 151 rejects a zero delta against a positive `int64_t` estimate, whether or
not `estimate * 20` overflows. -/
theorem VideoDecoder.zero_delta_rejected_wrap (D : Int) (hD : 0 < D) (hmax : D ≤ INT64_MAX) :
    ¬ wrap64 |wrap64 (D - wrap64 (0 - 0))| ≤ Int.tdiv (wrap64 (D * 20)) 100 := by
  have hmin : INT64_MIN ≤ D := by
    unfold INT64_MIN
    omega
  have h0 : wrap64 (0 - 0) = 0 := by decide
  rw [h0, sub_zero, wrap64_eq D hmin hmax, abs_of_pos hD, wrap64_eq D hmin hmax]
  by_cases h20 : D * 20 ≤ INT64_MAX
  · have hlo : INT64_MIN ≤ D * 20 := by
      unfold INT64_MIN
      omega
    rw [wrap64_eq _ hlo h20, Int.tdiv_eq_ediv (by omega) (by omega)]
    omega
  · have hb := tdiv_hundred_le (wrap64 (D * 20)) (wrap64_range _).2
    unfold INT64_MAX at h20
    omega

/-- The first blank frame after construction gets timestamp 0 and the estimate. -/
theorem VideoDecoder.receive_blank_first (trust_dec_pts key_frame : Bool) (previous_pts D : Int) :
    (VideoDecoder.new trust_dec_pts previous_pts).receive (AVFrame.blank key_frame) D =
      (⟨trust_dec_pts, 0, wrap64 (0 + D), 0⟩,
        { AVFrame.blank key_frame with pts := 0, duration := D }) := by
  simp [VideoDecoder.receive, VideoDecoder.assigned_pts, VideoDecoder.assigned_duration,
    VideoDecoder.use_avframe_state, VideoDecoder.new, VideoDecoder.avframe_pts_blank]
  simp [AVFrame.blank]

/-- A later blank non-key frame, untrusted mode, prediction `t > 0`: the frame gets
`t` and the estimate. -/
theorem VideoDecoder.receive_blank_next (t D : Int) (ht : 0 < t) (hD : 0 < D)
    (hmax : D ≤ INT64_MAX) :
    VideoDecoder.receive ⟨false, 0, t, 0⟩ (AVFrame.blank false) D =
      (⟨false, 0, wrap64 (t + D), 0⟩, { AVFrame.blank false with pts := t, duration := D }) := by
  have hn : t ≠ AV_NOPTS_VALUE := by
    unfold AV_NOPTS_VALUE
    omega
  have hz : (0 : Int) ≠ AV_NOPTS_VALUE := by decide
  have hb : (AVFrame.blank false).pts = AV_NOPTS_VALUE := rfl
  have hk : (AVFrame.blank false).key_frame = false := rfl
  have hu : VideoDecoder.use_avframe_state ⟨false, 0, t, 0⟩ (AVFrame.blank false) = false := by
    simp [VideoDecoder.use_avframe_state, hn, hb, hk, hz.symm]
  have hp : VideoDecoder.assigned_pts ⟨false, 0, t, 0⟩ (AVFrame.blank false) = t := by
    have h1 : ¬ t + 1 = 0 := by omega
    simp [VideoDecoder.assigned_pts, hu, VideoDecoder.avframe_pts_blank, h1]
  have hd : VideoDecoder.assigned_duration ⟨false, 0, t, 0⟩ (AVFrame.blank false) D = D := by
    have hdur : (AVFrame.blank false).duration = 0 := rfl
    simp only [VideoDecoder.assigned_duration, hu, hdur, VideoDecoder.avframe_pts_blank]
    simp only [beq_self_eq_true, Bool.not_false, if_true]
    exact if_neg (VideoDecoder.zero_delta_rejected_wrap D hD hmax)
  simp only [VideoDecoder.receive, hp, hd, VideoDecoder.avframe_pts_blank]
  simp [hz.symm]

theorem VideoDecoder.receiveAll_blank_next (D : Int) (hD : 0 < D) (hmax : D ≤ INT64_MAX)
    (frames : List AVFrame) :
    ∀ t : Int, 0 < t → t + ((frames.length : Int) - 1) * D ≤ INT64_MAX →
      (∀ f ∈ frames, f.pts = AV_NOPTS_VALUE ∧ f.best_effort_timestamp = AV_NOPTS_VALUE ∧
        f.duration = 0 ∧ f.key_frame = false) →
      (VideoDecoder.receiveAll ⟨false, 0, t, 0⟩ (frames.map (fun f => (f, D)))).2 =
        (List.range frames.length).map
          (fun k : Nat => { AVFrame.blank false with pts := t + (k : Int) * D, duration := D }) := by
  induction frames with
  | nil =>
    intro t _ _ _
    rfl
  | cons f rest ih =>
    intro t ht hrange hall
    have hf := hall f (List.mem_cons_self _ _)
    have hfb : f = AVFrame.blank false := by
      have := AVFrame.eq_blank f ⟨hf.1, hf.2.1, hf.2.2.1⟩
      rw [hf.2.2.2] at this
      exact this
    subst hfb
    rw [List.map_cons, VideoDecoder.receiveAll_cons, VideoDecoder.receive_blank_next t D ht hD hmax]
    show _ :: (VideoDecoder.receiveAll ⟨false, 0, wrap64 (t + D), 0⟩
      (rest.map (fun f => (f, D)))).2 = _
    have htail : (VideoDecoder.receiveAll ⟨false, 0, wrap64 (t + D), 0⟩
        (rest.map (fun f => (f, D)))).2 =
        (List.range rest.length).map
          (fun k : Nat =>
            { AVFrame.blank false with pts := t + D + (k : Int) * D, duration := D }) := by
      cases rest with
      | nil => rfl
      | cons g rest2 =>
        simp only [List.length_cons, Nat.cast_add, Nat.cast_one, add_sub_cancel_right] at hrange
        have hLD : 0 ≤ (rest2.length : Int) * D :=
          mul_nonneg (Int.ofNat_nonneg _) hD.le
        have hsum : t + D + (rest2.length : Int) * D ≤ INT64_MAX := by
          have : t + ((rest2.length : Int) + 1) * D = t + D + (rest2.length : Int) * D := by ring
          rw [← this]
          exact hrange
        have hlo : INT64_MIN ≤ t + D := by
          unfold INT64_MIN
          omega
        have hhi : t + D ≤ INT64_MAX := by omega
        rw [wrap64_eq _ hlo hhi]
        apply ih (t + D) (by omega) _ (fun h hh => hall h (List.mem_cons_of_mem _ hh))
        simp only [List.length_cons, Nat.cast_add, Nat.cast_one, add_sub_cancel_right]
        exact hsum
    rw [htail, List.length_cons, List.range_succ_eq_map, List.map_cons, List.map_map]
    congr 1
    · simp
    · apply List.map_congr_left
      intro k _
      simp only [Function.comp_apply, Nat.cast_succ]
      congr 1
      ring

end MissingLemmas

/-- C10, as stated, fails: three frames without source timestamp, best-effort
timestamp and duration, the first and third being key frames, estimate 3000, from the
constructor's state in untrusted mode.  The timestamps written are 0, 3000, 0: the key
frame takes the fallback 0, so they are neither increasing nor `k * 3000`.  In
trusted mode two such non-key frames both get 0.  And with four frames, none after
the first a key frame, and estimate 4611686014132420609, the sum of line 160 leaves
the 64-bit range before the fourth frame, which gets -4611686031312289789. -/
theorem missing_pts_key_frame_counterexample :
    ((VideoDecoder.new false 0).receiveAll
        [(AVFrame.blank true, 3000), (AVFrame.blank false, 3000), (AVFrame.blank true, 3000)]).2.map
        AVFrame.pts = [0, 3000, 0] ∧
      ¬ List.Pairwise (fun a b : Int => a < b)
        (((VideoDecoder.new false 0).receiveAll
          [(AVFrame.blank true, 3000), (AVFrame.blank false, 3000),
            (AVFrame.blank true, 3000)]).2.map AVFrame.pts) ∧
      ((VideoDecoder.new true 0).receiveAll
        [(AVFrame.blank false, 3000), (AVFrame.blank false, 3000)]).2.map AVFrame.pts = [0, 0] ∧
      ((VideoDecoder.new false 0).receiveAll
        [(AVFrame.blank true, 4611686014132420609), (AVFrame.blank false, 4611686014132420609),
          (AVFrame.blank false, 4611686014132420609),
          (AVFrame.blank false, 4611686014132420609)]).2.map AVFrame.pts
        = [0, 4611686014132420609, 9223372028264841218, -4611686031312289789] := by
  decide

/-- C10, amended. Fallback on missing timestamps between key frames: in untrusted
mode, from the constructor's state, for a stream of frames that all lack source
timestamp, best-effort timestamp and duration, of which none after the first is a key
frame, and a constant positive estimate `D` for which the last timestamp
`(N - 1) * D` of the `N` frames is still an `int64_t`: the `k`-th frame (from 0) gets
timestamp `k * D`, every duration written is `D`, and the timestamps are strictly
increasing. -/
theorem missing_pts_fallback (previous_pts D : Int) (frames : List AVFrame) (hD : 0 < D)
    (hrange : ((frames.length : Int) - 1) * D ≤ INT64_MAX)
    (hmissing : ∀ f ∈ frames, f.pts = AV_NOPTS_VALUE ∧
      f.best_effort_timestamp = AV_NOPTS_VALUE ∧ f.duration = 0)
    (hkey : ∀ f ∈ frames.tail, f.key_frame = false) :
    (((VideoDecoder.new false previous_pts).receiveAll (frames.map (fun f => (f, D)))).2.map
        AVFrame.pts = (List.range frames.length).map (fun k : Nat => (k : Int) * D)) ∧
      (((VideoDecoder.new false previous_pts).receiveAll (frames.map (fun f => (f, D)))).2.map
        AVFrame.duration = List.replicate frames.length D) ∧
      List.Pairwise (fun a b : Int => a < b)
        (((VideoDecoder.new false previous_pts).receiveAll (frames.map (fun f => (f, D)))).2.map
          AVFrame.pts) := by
  have hpts : ((VideoDecoder.new false previous_pts).receiveAll (frames.map (fun f => (f, D)))).2
      = (List.range frames.length).map
          (fun k : Nat =>
            { AVFrame.blank (k == 0 && (frames.head?.map AVFrame.key_frame).getD false)
              with pts := (k : Int) * D, duration := D }) := by
    cases frames with
    | nil => rfl
    | cons f rest =>
      have hf := AVFrame.eq_blank f (hmissing f (List.mem_cons_self _ _))
      rw [List.map_cons, VideoDecoder.receiveAll_cons, hf,
        VideoDecoder.receive_blank_first false f.key_frame previous_pts D]
      show _ :: (VideoDecoder.receiveAll ⟨false, 0, wrap64 (0 + D), 0⟩
        (rest.map (fun f => (f, D)))).2 = _
      have htail : (VideoDecoder.receiveAll ⟨false, 0, wrap64 (0 + D), 0⟩
          (rest.map (fun f => (f, D)))).2 =
          (List.range rest.length).map
            (fun k : Nat =>
              { AVFrame.blank false with pts := 0 + D + (k : Int) * D, duration := D }) := by
        cases rest with
        | nil => rfl
        | cons g rest2 =>
          simp only [List.length_cons, Nat.cast_add, Nat.cast_one, add_sub_cancel_right] at hrange
          have hLD : 0 ≤ (rest2.length : Int) * D := mul_nonneg (Int.ofNat_nonneg _) hD.le
          have hexp : ((rest2.length : Int) + 1) * D = (rest2.length : Int) * D + D := by ring
          have hmax : D ≤ INT64_MAX := by omega
          have hlo : INT64_MIN ≤ 0 + D := by
            unfold INT64_MIN
            omega
          rw [wrap64_eq _ hlo (by omega)]
          apply VideoDecoder.receiveAll_blank_next D hD hmax (g :: rest2) (0 + D) (by omega) _
            (fun h hh => ⟨(hmissing h (List.mem_cons_of_mem _ hh)).1,
              (hmissing h (List.mem_cons_of_mem _ hh)).2.1,
              (hmissing h (List.mem_cons_of_mem _ hh)).2.2, hkey h hh⟩)
          simp only [List.length_cons, Nat.cast_add, Nat.cast_one, add_sub_cancel_right]
          omega
      rw [htail, List.length_cons, List.range_succ_eq_map, List.map_cons, List.map_map]
      congr 1
      · simp [AVFrame.blank]
      · apply List.map_congr_left
        intro k _
        simp only [Function.comp_apply, Nat.cast_succ]
        simp [AVFrame.blank]
        ring
  have h1 : ((VideoDecoder.new false previous_pts).receiveAll (frames.map (fun f => (f, D)))).2.map
        AVFrame.pts = (List.range frames.length).map (fun k : Nat => (k : Int) * D) := by
    rw [hpts, List.map_map]
    rfl
  refine ⟨h1, ?_, ?_⟩
  · rw [hpts, List.map_map]
    apply List.ext_getElem
    · simp
    · intro n hn1 hn2
      simp
  · rw [h1, List.pairwise_map]
    apply List.Pairwise.imp_of_mem _ (List.pairwise_lt_range frames.length)
    intro a b _ _ hab
    have : (a : Int) < (b : Int) := by exact_mod_cast hab
    exact mul_lt_mul_of_pos_right this hD

/-- C10 amended, on four frames (key, non-key, non-key, non-key), estimate 3000. -/
theorem missing_pts_fallback_witness :
    (((VideoDecoder.new false 5).receiveAll
        ([AVFrame.blank true, AVFrame.blank false, AVFrame.blank false, AVFrame.blank false].map
          (fun f => (f, 3000)))).2.map AVFrame.pts
      = (List.range 4).map (fun k : Nat => (k : Int) * 3000)) :=
  (missing_pts_fallback 5 3000
    [AVFrame.blank true, AVFrame.blank false, AVFrame.blank false, AVFrame.blank false]
    (by decide) (by decide) (by decide) (by decide)).1

/-! ## The reconciler: overrides, resynchronisation and the state it carries -/

section StateLemmas

theorem VideoDecoder.avframe_pts_ne_nopts (frame : AVFrame) :
    VideoDecoder.avframe_pts frame ≠ AV_NOPTS_VALUE := by
  unfold VideoDecoder.avframe_pts
  split_ifs with h1 h2
  · exact h1
  · exact h2
  · decide

theorem VideoDecoder.receive_first_pts (d : VideoDecoder) (frame : AVFrame) (estimate : Int) :
    (d.receive frame estimate).1.first_pts_ =
      if d.first_pts_ = AV_NOPTS_VALUE then VideoDecoder.avframe_pts frame else d.first_pts_ := by
  simp [VideoDecoder.receive]

theorem VideoDecoder.receive_first_pts_ne (d : VideoDecoder) (frame : AVFrame) (estimate : Int) :
    (d.receive frame estimate).1.first_pts_ ≠ AV_NOPTS_VALUE := by
  rw [VideoDecoder.receive_first_pts]
  split_ifs with h
  · exact VideoDecoder.avframe_pts_ne_nopts frame
  · exact h

theorem VideoDecoder.receive_previous_pts (d : VideoDecoder) (frame : AVFrame) (estimate : Int) :
    (d.receive frame estimate).1.previous_pts_ = VideoDecoder.avframe_pts frame := rfl

theorem VideoDecoder.receiveAll_first_pts (inputs : List (AVFrame × Int)) :
    ∀ d : VideoDecoder, d.first_pts_ ≠ AV_NOPTS_VALUE →
      (d.receiveAll inputs).1.first_pts_ = d.first_pts_ := by
  induction inputs with
  | nil =>
    intro d _
    rfl
  | cons i rest ih =>
    intro d hd
    rcases i with ⟨frame, estimate⟩
    rw [VideoDecoder.receiveAll_cons]
    show ((d.receive frame estimate).1.receiveAll rest).1.first_pts_ = d.first_pts_
    rw [ih _ (VideoDecoder.receive_first_pts_ne d frame estimate), VideoDecoder.receive_first_pts,
      if_neg hd]

/-- After at least one frame `first_pts_` is the first frame's `avframe_pts`. -/
theorem VideoDecoder.receiveAll_new_first_pts (trust_dec_pts : Bool) (previous_pts : Int)
    (frame : AVFrame) (estimate : Int) (rest : List (AVFrame × Int)) :
    ((VideoDecoder.new trust_dec_pts previous_pts).receiveAll ((frame, estimate) :: rest)).1.first_pts_
      = VideoDecoder.avframe_pts frame := by
  rw [VideoDecoder.receiveAll_cons]
  show (((VideoDecoder.new trust_dec_pts previous_pts).receive frame estimate).1.receiveAll
    rest).1.first_pts_ = VideoDecoder.avframe_pts frame
  rw [VideoDecoder.receiveAll_first_pts rest _ (VideoDecoder.receive_first_pts_ne _ frame estimate),
    VideoDecoder.receive_first_pts]
  simp [VideoDecoder.new]

/-- A state reached from the constructor in which `next_pts_` is set has seen a
frame, so `first_pts_` is set as well. -/
theorem VideoDecoder.first_set_of_next_set (trust_dec_pts : Bool) (previous_pts : Int)
    (inputs : List (AVFrame × Int))
    (h : ((VideoDecoder.new trust_dec_pts previous_pts).receiveAll inputs).1.next_pts_
      ≠ AV_NOPTS_VALUE) :
    inputs ≠ [] ∧
      ((VideoDecoder.new trust_dec_pts previous_pts).receiveAll inputs).1.first_pts_
        ≠ AV_NOPTS_VALUE := by
  cases inputs with
  | nil => exact absurd rfl h
  | cons i rest =>
    rcases i with ⟨frame, estimate⟩
    refine ⟨List.cons_ne_nil _ _, ?_⟩
    rw [VideoDecoder.receiveAll_new_first_pts]
    exact VideoDecoder.avframe_pts_ne_nopts frame

/-- The comparison of line 140 on `int64_t` operands: wrapping `next_pts_ + 1` does
not change its outcome, because the only sum that wraps gives `AV_NOPTS_VALUE`, which
`avframe_pts` never is. -/
theorem VideoDecoder.assigned_pts_wrap (d : VideoDecoder) (frame : AVFrame)
    (hnext : INT64_MIN ≤ d.next_pts_ ∧ d.next_pts_ ≤ INT64_MAX)
    (hav : INT64_MIN ≤ VideoDecoder.avframe_pts frame ∧
      VideoDecoder.avframe_pts frame ≤ INT64_MAX) :
    wrap64 (d.next_pts_ + 1) = VideoDecoder.avframe_pts frame ↔
      d.next_pts_ + 1 = VideoDecoder.avframe_pts frame := by
  have hne := VideoDecoder.avframe_pts_ne_nopts frame
  unfold AV_NOPTS_VALUE at hne
  unfold INT64_MIN INT64_MAX at hnext hav
  unfold wrap64
  constructor <;> intro h <;> omega

/-- When none of the four disjuncts of line 136 holds, `use_avframe_state` is false. -/
theorem VideoDecoder.use_avframe_state_false (d : VideoDecoder) (frame : AVFrame)
    (htrust : d.trust_decoded_pts_ = false) (hnext : d.next_pts_ ≠ AV_NOPTS_VALUE)
    (hkey : frame.key_frame = false) (hfirst : frame.pts ≠ d.first_pts_) :
    d.use_avframe_state frame = false := by
  simp [VideoDecoder.use_avframe_state, htrust, hnext, hkey, hfirst]

end StateLemmas

/-- C11. Outlier override: in untrusted mode, with `next_pts_` set, a non-key frame
whose present `pts` differs from `next_pts_ + 1` and from `first_pts_` leaves `receive`
with `next_pts_` as its timestamp, not its own `pts`; and the prediction carried to the
following frame is the `int64_t` sum of the timestamp written and the duration
written. -/
theorem outlier_override (d : VideoDecoder) (frame : AVFrame) (estimate : Int)
    (htrust : d.trust_decoded_pts_ = false) (hnext : d.next_pts_ ≠ AV_NOPTS_VALUE)
    (hkey : frame.key_frame = false) (hpts : frame.pts ≠ AV_NOPTS_VALUE)
    (hcont : frame.pts ≠ d.next_pts_ + 1) (hfirst : frame.pts ≠ d.first_pts_) :
    (d.receive frame estimate).2.pts = d.next_pts_ ∧
      (d.receive frame estimate).1.next_pts_ =
        wrap64 ((d.receive frame estimate).2.pts + (d.receive frame estimate).2.duration) := by
  have hu := VideoDecoder.use_avframe_state_false d frame htrust hnext hkey hfirst
  have hav := VideoDecoder.avframe_pts_of_present frame hpts
  refine ⟨?_, rfl⟩
  show d.assigned_pts frame = d.next_pts_
  have hne : ¬ d.next_pts_ + 1 = frame.pts := fun h => hcont h.symm
  simp [VideoDecoder.assigned_pts, hu, hav, hne]

/-- C11 on the state after frames at 0 and 3000 (prediction 6000): a non-key frame
stamped 123456 is given 6000. -/
theorem outlier_override_witness :
    (VideoDecoder.receive ⟨false, 0, 6000, 3000⟩ ⟨123456, 123456, false, 0⟩ 3000).2.pts = 6000 :=
  (outlier_override ⟨false, 0, 6000, 3000⟩ ⟨123456, 123456, false, 0⟩ 3000 rfl (by decide) rfl
    (by decide) (by decide) (by decide)).1

/-- C12. A frame without timestamps continues the prediction: in untrusted mode, in a
state where a first timestamp has been recorded and `next_pts_ = n` is set with
`n ≠ -1`, a non-key frame lacking both `pts` and `best_effort_timestamp` is given `n`,
whatever `first_pts_` is (0 included).  Every state reached from the constructor in
which `next_pts_` is set has `first_pts_` recorded.  Scenario: frames stamped 0, 3000,
6000 and then one without timestamps, non-key after the first, durations unset,
estimate 3000, come out stamped 0, 3000, 6000, 9000. -/
theorem missing_pts_continues_prediction (d : VideoDecoder) (frame : AVFrame) (estimate : Int)
    (htrust : d.trust_decoded_pts_ = false) (hnext : d.next_pts_ ≠ AV_NOPTS_VALUE)
    (hn : d.next_pts_ ≠ -1) (hfirst : d.first_pts_ ≠ AV_NOPTS_VALUE)
    (hkey : frame.key_frame = false) (hpts : frame.pts = AV_NOPTS_VALUE)
    (hbest : frame.best_effort_timestamp = AV_NOPTS_VALUE) :
    (d.receive frame estimate).2.pts = d.next_pts_ ∧
      (∀ (trust_dec_pts : Bool) (previous_pts : Int) (inputs : List (AVFrame × Int)),
        ((VideoDecoder.new trust_dec_pts previous_pts).receiveAll inputs).1.next_pts_
            ≠ AV_NOPTS_VALUE →
          ((VideoDecoder.new trust_dec_pts previous_pts).receiveAll inputs).1.first_pts_
            ≠ AV_NOPTS_VALUE) ∧
      ((VideoDecoder.new false 0).receiveAll
          [(⟨0, 0, true, 0⟩, 3000), (⟨3000, 3000, false, 0⟩, 3000), (⟨6000, 6000, false, 0⟩, 3000),
            (AVFrame.blank false, 3000)]).2.map AVFrame.pts = [0, 3000, 6000, 9000] := by
  refine ⟨?_, ?_, by decide⟩
  · have hu : d.use_avframe_state frame = false :=
      VideoDecoder.use_avframe_state_false d frame htrust hnext hkey
        (by rw [hpts]; exact fun h => hfirst h.symm)
    have hav : VideoDecoder.avframe_pts frame = 0 := by
      simp [VideoDecoder.avframe_pts, hpts, hbest]
    show d.assigned_pts frame = d.next_pts_
    have hne : ¬ d.next_pts_ + 1 = 0 := by omega
    simp [VideoDecoder.assigned_pts, hu, hav, hne]
  · intro t p inputs h
    exact (VideoDecoder.first_set_of_next_set t p inputs h).2

/-- C12 on the state after frames at 0, 3000, 6000, whose first timestamp is 0. -/
theorem missing_pts_continues_prediction_witness :
    (VideoDecoder.receive ⟨false, 0, 9000, 6000⟩ (AVFrame.blank false) 3000).2.pts = 9000 :=
  (missing_pts_continues_prediction ⟨false, 0, 9000, 6000⟩ (AVFrame.blank false) 3000 rfl
    (by decide) (by decide) (by decide) rfl rfl rfl).1

/-- C13, as stated, fails: after frames stamped 0, 3000, 6000 (untrusted mode,
estimate 3000) the decoder holds first timestamp 0 and prediction 9000.  A non-key
frame without `pts` and `best_effort_timestamp` has effective timestamp 0, equal to
the first timestamp, yet `use_avframe_state` is false and the frame is given 9000:
line 136 compares the frame's own `pts`, not the effective timestamp. -/
theorem seek_back_effective_counterexample :
    ((VideoDecoder.new false 0).receiveAll
        [(⟨0, 0, true, 0⟩, 3000), (⟨3000, 3000, false, 0⟩, 3000),
          (⟨6000, 6000, false, 0⟩, 3000)]).1 = ⟨false, 0, 9000, 6000⟩ ∧
      VideoDecoder.avframe_pts (AVFrame.blank false)
        = (⟨false, 0, 9000, 6000⟩ : VideoDecoder).first_pts_ ∧
      VideoDecoder.use_avframe_state ⟨false, 0, 9000, 6000⟩ (AVFrame.blank false) = false ∧
      (VideoDecoder.receive ⟨false, 0, 9000, 6000⟩ (AVFrame.blank false) 3000).2.pts = 9000 ∧
      (VideoDecoder.receive ⟨false, 0, 9000, 6000⟩ (AVFrame.blank false) 3000).2.pts
        ≠ VideoDecoder.avframe_pts (AVFrame.blank false) := by
  decide

/-- C13, amended. Seek-back resynchronisation on the source timestamp: in a state
where `first_pts_` is set, a frame whose own `pts` equals `first_pts_` (so it is
present, and is the effective timestamp) has `use_avframe_state` true; it keeps that
timestamp, and its duration is its own when set and the estimate otherwise, never the
observed delta; whatever the trust option, the key-frame flag and `next_pts_` are. -/
theorem seek_back_resync (d : VideoDecoder) (frame : AVFrame) (estimate : Int)
    (hfirst : d.first_pts_ ≠ AV_NOPTS_VALUE) (heq : frame.pts = d.first_pts_) :
    VideoDecoder.avframe_pts frame = frame.pts ∧
      d.use_avframe_state frame = true ∧
      (d.receive frame estimate).2.pts = VideoDecoder.avframe_pts frame ∧
      (d.receive frame estimate).2.duration
        = (if frame.duration = 0 then estimate else frame.duration) := by
  have hpts : frame.pts ≠ AV_NOPTS_VALUE := by rw [heq]; exact hfirst
  have hav := VideoDecoder.avframe_pts_of_present frame hpts
  have hu : d.use_avframe_state frame = true := by
    simp [VideoDecoder.use_avframe_state, heq]
  refine ⟨hav, hu, ?_, ?_⟩
  · show d.assigned_pts frame = VideoDecoder.avframe_pts frame
    simp [VideoDecoder.assigned_pts, hu]
  · show d.assigned_duration frame estimate = _
    simp [VideoDecoder.assigned_duration, hu]

/-- C13 amended, on a non-key frame stamped 0 arriving in mid-stream (prediction
9000, first timestamp 0). -/
theorem seek_back_resync_witness :
    (VideoDecoder.receive ⟨false, 0, 9000, 6000⟩ ⟨0, 0, false, 0⟩ 3000).2.pts = 0 ∧
      (VideoDecoder.receive ⟨false, 0, 9000, 6000⟩ ⟨0, 0, false, 0⟩ 3000).2.duration = 3000 :=
  ⟨((seek_back_resync ⟨false, 0, 9000, 6000⟩ ⟨0, 0, false, 0⟩ 3000 (by decide) rfl).2.2.1).trans
      (by decide),
    ((seek_back_resync ⟨false, 0, 9000, 6000⟩ ⟨0, 0, false, 0⟩ 3000 (by decide) rfl).2.2.2).trans
      (by decide)⟩

section DurationLemmas

/-- For a non-negative estimate the bound of line 151 is the floor of a fifth of it. -/
theorem VideoDecoder.tolerance_nonneg (e : Int) (he : 0 ≤ e) :
    Int.tdiv (e * 20) 100 = e * 20 / 100 :=
  Int.tdiv_eq_ediv (by omega) (by omega)

/-- For a negative estimate the bound of line 151 is not positive. -/
theorem VideoDecoder.tolerance_neg (e : Int) (he : e < 0) : Int.tdiv (e * 20) 100 ≤ 0 := by
  have h1 : e * 20 = -((-e) * 20) := by ring
  rw [h1, Int.neg_tdiv, Int.tdiv_eq_ediv (by omega) (by omega)]
  omega

/-- A zero delta never passes the test of line 151 against a non-zero estimate. -/
theorem VideoDecoder.zero_delta_not_accepted (e : Int) (he : e ≠ 0) :
    ¬ |e - 0| ≤ Int.tdiv (e * 20) 100 := by
  rw [sub_zero]
  rcases lt_or_gt_of_ne he with hneg | hpos
  · have h1 := VideoDecoder.tolerance_neg e hneg
    have h2 : 0 < |e| := abs_pos.mpr he
    omega
  · exact VideoDecoder.zero_delta_rejected e hpos

/-- The value chosen by line 151-153 is zero only for a zero estimate. -/
theorem VideoDecoder.tolerance_zero_iff (e delta : Int) :
    (if |e - delta| ≤ Int.tdiv (e * 20) 100 then delta else e) = 0 ↔ e = 0 := by
  by_cases he : e = 0
  · subst he
    split_ifs with h
    · simp only [zero_sub, abs_neg, zero_mul, Int.zero_tdiv] at h
      have h0 := abs_eq_zero.mp (le_antisymm h (abs_nonneg _))
      simp [h0]
    · simp
  · split_ifs with h
    · constructor
      · intro hz
        rw [hz] at h
        exact absurd h (VideoDecoder.zero_delta_not_accepted e he)
      · intro hz
        exact absurd hz he
    · exact Iff.rfl

/-- Whatever `estimate * 20` wraps to, the bound of line 151 is at most a non-negative
estimate. -/
theorem VideoDecoder.tolerance_bound_le (e : Int) (he : 0 ≤ e) :
    Int.tdiv (wrap64 (e * 20)) 100 ≤ e := by
  by_cases h20 : e * 20 ≤ INT64_MAX
  · have hlo : INT64_MIN ≤ e * 20 := by
      unfold INT64_MIN
      omega
    rw [wrap64_eq _ hlo h20, VideoDecoder.tolerance_nonneg e he]
    omega
  · have hb := tdiv_hundred_le (wrap64 (e * 20)) (wrap64_range _).2
    unfold INT64_MAX at h20
    omega

/-- When the operations of lines 148 and 151 stay inside the `int64_t` range, the
duration they choose is the one exact integer arithmetic gives. -/
theorem VideoDecoder.assigned_duration_in_range (d : VideoDecoder) (frame : AVFrame)
    (estimate : Int) (hdur : frame.duration = 0) (hu : d.use_avframe_state frame = false)
    (h148 : INT64_MIN ≤ VideoDecoder.avframe_pts frame - d.previous_pts_ ∧
      VideoDecoder.avframe_pts frame - d.previous_pts_ ≤ INT64_MAX)
    (h151 : -INT64_MAX ≤ estimate - (VideoDecoder.avframe_pts frame - d.previous_pts_) ∧
      estimate - (VideoDecoder.avframe_pts frame - d.previous_pts_) ≤ INT64_MAX)
    (h20 : INT64_MIN ≤ estimate * 20 ∧ estimate * 20 ≤ INT64_MAX) :
    d.assigned_duration frame estimate =
      (if |estimate - (VideoDecoder.avframe_pts frame - d.previous_pts_)|
          ≤ Int.tdiv (estimate * 20) 100
        then VideoDecoder.avframe_pts frame - d.previous_pts_ else estimate) := by
  have hx : INT64_MIN ≤ estimate - (VideoDecoder.avframe_pts frame - d.previous_pts_) := by
    have := h151.1
    unfold INT64_MIN
    unfold INT64_MAX at this
    omega
  have habs : INT64_MIN ≤ |estimate - (VideoDecoder.avframe_pts frame - d.previous_pts_)| ∧
      |estimate - (VideoDecoder.avframe_pts frame - d.previous_pts_)| ≤ INT64_MAX := by
    have h1 := abs_nonneg (estimate - (VideoDecoder.avframe_pts frame - d.previous_pts_))
    have h2 := abs_le.mpr ⟨h151.1, h151.2⟩
    refine ⟨?_, h2⟩
    unfold INT64_MIN
    omega
  simp only [VideoDecoder.assigned_duration, hdur, beq_self_eq_true, if_true, hu, Bool.not_false]
  rw [wrap64_eq _ h148.1 h148.2, wrap64_eq _ hx h151.2, wrap64_eq _ habs.1 habs.2,
    wrap64_eq _ h20.1 h20.2]

theorem VideoDecoder.assigned_duration_eq_zero_iff (d : VideoDecoder) (frame : AVFrame)
    (estimate : Int)
    (hrange : frame.duration = 0 → d.use_avframe_state frame = false →
      (INT64_MIN ≤ VideoDecoder.avframe_pts frame - d.previous_pts_ ∧
        VideoDecoder.avframe_pts frame - d.previous_pts_ ≤ INT64_MAX) ∧
      (-INT64_MAX ≤ estimate - (VideoDecoder.avframe_pts frame - d.previous_pts_) ∧
        estimate - (VideoDecoder.avframe_pts frame - d.previous_pts_) ≤ INT64_MAX) ∧
      (INT64_MIN ≤ estimate * 20 ∧ estimate * 20 ≤ INT64_MAX)) :
    d.assigned_duration frame estimate = 0 ↔ frame.duration = 0 ∧ estimate = 0 := by
  by_cases hd : frame.duration = 0
  · cases hu : d.use_avframe_state frame with
    | true => simp [VideoDecoder.assigned_duration, hd, hu]
    | false =>
      have hr := hrange hd hu
      rw [VideoDecoder.assigned_duration_in_range d frame estimate hd hu hr.1 hr.2.1 hr.2.2,
        VideoDecoder.tolerance_zero_iff]
      simp [hd]
  · simp [VideoDecoder.assigned_duration, hd]

/-- With a non-negative estimate and the differences of lines 148 and 151 inside the
`int64_t` range, the duration chosen for a frame without one is non-negative. -/
theorem VideoDecoder.assigned_duration_nonneg (d : VideoDecoder) (frame : AVFrame)
    (estimate : Int) (hdur : frame.duration = 0) (hu : d.use_avframe_state frame = false)
    (hest : 0 ≤ estimate)
    (h148 : INT64_MIN ≤ VideoDecoder.avframe_pts frame - d.previous_pts_ ∧
      VideoDecoder.avframe_pts frame - d.previous_pts_ ≤ INT64_MAX)
    (h151 : estimate - (VideoDecoder.avframe_pts frame - d.previous_pts_) ≤ INT64_MAX) :
    0 ≤ d.assigned_duration frame estimate := by
  have hlo : -INT64_MAX ≤ estimate - (VideoDecoder.avframe_pts frame - d.previous_pts_) := by
    have := h148.2
    omega
  have hx : INT64_MIN ≤ estimate - (VideoDecoder.avframe_pts frame - d.previous_pts_) := by
    unfold INT64_MIN
    unfold INT64_MAX at hlo
    omega
  have h2 := abs_le.mpr ⟨hlo, h151⟩
  have h1 := abs_nonneg (estimate - (VideoDecoder.avframe_pts frame - d.previous_pts_))
  have habs : INT64_MIN ≤ |estimate - (VideoDecoder.avframe_pts frame - d.previous_pts_)| := by
    unfold INT64_MIN
    omega
  simp only [VideoDecoder.assigned_duration, hdur, beq_self_eq_true, if_true, hu, Bool.not_false]
  rw [wrap64_eq _ h148.1 h148.2, wrap64_eq _ hx h151, wrap64_eq _ habs h2]
  split_ifs with h
  · have hb := VideoDecoder.tolerance_bound_le estimate hest
    have h3 := (abs_le.mp (le_trans h hb)).2
    omega
  · exact hest

end DurationLemmas

/-- C14 fails on the code: a frame with unset duration for which the rate-based
estimate is 0 leaves `receive` with duration 0 (here the first frame of a stream).
Exactly, as long as the operations of lines 148 and 151, where they are executed, stay
inside the `int64_t` range: the duration written is zero if and only if the frame's
duration is unset and the estimate is zero. -/
theorem zero_estimate_zero_duration (d : VideoDecoder) (frame : AVFrame) (estimate : Int) :
    ((VideoDecoder.new false 0).receive ⟨0, 0, true, 0⟩ 0).2.duration = 0 ∧
      ((frame.duration = 0 → d.use_avframe_state frame = false →
          (INT64_MIN ≤ VideoDecoder.avframe_pts frame - d.previous_pts_ ∧
            VideoDecoder.avframe_pts frame - d.previous_pts_ ≤ INT64_MAX) ∧
          (-INT64_MAX ≤ estimate - (VideoDecoder.avframe_pts frame - d.previous_pts_) ∧
            estimate - (VideoDecoder.avframe_pts frame - d.previous_pts_) ≤ INT64_MAX) ∧
          (INT64_MIN ≤ estimate * 20 ∧ estimate * 20 ≤ INT64_MAX)) →
        ((d.receive frame estimate).2.duration = 0 ↔ frame.duration = 0 ∧ estimate = 0)) :=
  ⟨by decide, VideoDecoder.assigned_duration_eq_zero_iff d frame estimate⟩

/-- C15. The first timestamp is set once: the first `receive` after construction
stores the first frame's effective timestamp in `first_pts_`; that value is never
`AV_NOPTS_VALUE` (no frame has that effective timestamp), and after any further
sequence of frames `first_pts_` still holds it. -/
theorem first_pts_set_once (trust_dec_pts : Bool) (previous_pts : Int) (frame : AVFrame)
    (estimate : Int) (later : List (AVFrame × Int)) :
    ((VideoDecoder.new trust_dec_pts previous_pts).receive frame estimate).1.first_pts_
        = VideoDecoder.avframe_pts frame ∧
      (∀ f : AVFrame, VideoDecoder.avframe_pts f ≠ AV_NOPTS_VALUE) ∧
      (((VideoDecoder.new trust_dec_pts previous_pts).receive frame estimate).1.receiveAll
        later).1.first_pts_ = VideoDecoder.avframe_pts frame := by
  have h1 : ((VideoDecoder.new trust_dec_pts previous_pts).receive frame estimate).1.first_pts_
      = VideoDecoder.avframe_pts frame := by
    rw [VideoDecoder.receive_first_pts]
    simp [VideoDecoder.new]
  refine ⟨h1, VideoDecoder.avframe_pts_ne_nopts, ?_⟩
  rw [VideoDecoder.receiveAll_first_pts later _ (VideoDecoder.receive_first_pts_ne _ frame estimate),
    h1]

/-- C16, as stated, fails: a key frame stamped 9223372036854772797 with duration 3000
leaves the decoder (untrusted mode) with prediction `n = 9223372036854775797`.  A
non-key frame stamped 5000 with duration 100 then meets every condition of the claim
(its `pts` is not the first timestamp, duration and estimate are non-negative), is
given `n`, and the sum `n + 100` of line 160 leaves the 64-bit range: the new
`next_pts_` is -9223372036854775719, below `n`. -/
theorem next_pts_overflow_counterexample :
    ((VideoDecoder.new false 0).receiveAll
        [(⟨9223372036854772797, 9223372036854772797, true, 3000⟩, 3000)]).1
      = ⟨false, 9223372036854772797, 9223372036854775797, 9223372036854772797⟩ ∧
      (9223372036854775797 : Int) ≠ AV_NOPTS_VALUE ∧
      (5000 : Int) ≠ 9223372036854772797 ∧
      (VideoDecoder.receive ⟨false, 9223372036854772797, 9223372036854775797, 9223372036854772797⟩
        ⟨5000, 5000, false, 100⟩ 3000).2.pts = 9223372036854775797 ∧
      (VideoDecoder.receive ⟨false, 9223372036854772797, 9223372036854775797, 9223372036854772797⟩
        ⟨5000, 5000, false, 100⟩ 3000).1.next_pts_ = -9223372036854775719 ∧
      ¬ (9223372036854775797 : Int) ≤
        (VideoDecoder.receive
          ⟨false, 9223372036854772797, 9223372036854775797, 9223372036854772797⟩
          ⟨5000, 5000, false, 100⟩ 3000).1.next_pts_ := by
  decide

/-- C16, amended. The prediction does not decrease while the arithmetic stays in
range: in untrusted mode, with `next_pts_ = n` set, for a non-key frame whose `pts` is
not `first_pts_`, with a non-negative duration and a non-negative estimate, provided
that, when the duration is unset, the differences `avframe_pts - previous_pts_` of line
148 and `estimate - delta` of line 151 are inside the `int64_t` range, and that the sum
of line 160 (timestamp written plus duration written) is inside it: the timestamp
written is `n` or `n + 1`, the duration written is non-negative, and the new
`next_pts_` is at least `n`. -/
theorem next_pts_non_decreasing (d : VideoDecoder) (frame : AVFrame) (estimate : Int)
    (htrust : d.trust_decoded_pts_ = false) (hnext : d.next_pts_ ≠ AV_NOPTS_VALUE)
    (hkey : frame.key_frame = false) (hfirst : frame.pts ≠ d.first_pts_)
    (hdur : 0 ≤ frame.duration) (hest : 0 ≤ estimate)
    (h148 : frame.duration = 0 →
      INT64_MIN ≤ VideoDecoder.avframe_pts frame - d.previous_pts_ ∧
        VideoDecoder.avframe_pts frame - d.previous_pts_ ≤ INT64_MAX)
    (h151 : frame.duration = 0 →
      estimate - (VideoDecoder.avframe_pts frame - d.previous_pts_) ≤ INT64_MAX)
    (h160 : INT64_MIN ≤ (d.receive frame estimate).2.pts + (d.receive frame estimate).2.duration ∧
      (d.receive frame estimate).2.pts + (d.receive frame estimate).2.duration ≤ INT64_MAX) :
    d.next_pts_ ≤ (d.receive frame estimate).1.next_pts_ ∧
      ((d.receive frame estimate).2.pts = d.next_pts_ ∨
        (d.receive frame estimate).2.pts = d.next_pts_ + 1) ∧
      0 ≤ (d.receive frame estimate).2.duration := by
  have hu := VideoDecoder.use_avframe_state_false d frame htrust hnext hkey hfirst
  have hp : d.assigned_pts frame = d.next_pts_ ∨ d.assigned_pts frame = d.next_pts_ + 1 := by
    unfold VideoDecoder.assigned_pts
    by_cases hc : d.next_pts_ + 1 = VideoDecoder.avframe_pts frame
    · right
      simp [hu, hc]
    · left
      simp [hu, hc]
  have hd : 0 ≤ d.assigned_duration frame estimate := by
    by_cases hz : frame.duration = 0
    · exact VideoDecoder.assigned_duration_nonneg d frame estimate hz hu hest (h148 hz) (h151 hz)
    · simpa [VideoDecoder.assigned_duration, hz] using hdur
  refine ⟨?_, hp, hd⟩
  have hsum : wrap64 (d.assigned_pts frame + d.assigned_duration frame estimate)
      = d.assigned_pts frame + d.assigned_duration frame estimate := wrap64_eq _ h160.1 h160.2
  show d.next_pts_ ≤ wrap64 (d.assigned_pts frame + d.assigned_duration frame estimate)
  rw [hsum]
  rcases hp with hp | hp <;> omega

/-- C16 amended, on the state after frames at 0 and 3000: a frame stamped 6100 moves
the prediction from 6000 to 9100. -/
theorem next_pts_non_decreasing_witness :
    (6000 : Int) ≤ (VideoDecoder.receive ⟨false, 0, 6000, 3000⟩ ⟨6100, 6100, false, 0⟩ 3000).1.next_pts_ :=
  (next_pts_non_decreasing ⟨false, 0, 6000, 3000⟩ ⟨6100, 6100, false, 0⟩ 3000 rfl (by decide) rfl
    (by decide) (by decide) (by decide) (by decide) (by decide) (by decide)).1

/-- C18. Trusted mode is state independent: with `trust_decoded_pts_` set, `receive`
rewrites a frame in the same way from any two decoder states; the timestamp written is
the effective timestamp, and the duration written is the frame's own when set and
exactly the estimate otherwise. -/
theorem trusted_mode_state_independent (s1 s2 : VideoDecoder) (frame : AVFrame) (estimate : Int)
    (h1 : s1.trust_decoded_pts_ = true) (h2 : s2.trust_decoded_pts_ = true) :
    (s1.receive frame estimate).2 = (s2.receive frame estimate).2 ∧
      (s1.receive frame estimate).2.pts = VideoDecoder.avframe_pts frame ∧
      (s1.receive frame estimate).2.duration
        = (if frame.duration = 0 then estimate else frame.duration) := by
  have hp : ∀ s : VideoDecoder, s.trust_decoded_pts_ = true →
      s.assigned_pts frame = VideoDecoder.avframe_pts frame := by
    intro s hs
    simp [VideoDecoder.assigned_pts, VideoDecoder.use_avframe_state, hs]
  have hd : ∀ s : VideoDecoder, s.trust_decoded_pts_ = true →
      s.assigned_duration frame estimate
        = (if frame.duration = 0 then estimate else frame.duration) := by
    intro s hs
    simp [VideoDecoder.assigned_duration, VideoDecoder.use_avframe_state, hs]
  refine ⟨?_, hp s1 h1, hd s1 h1⟩
  show ({ frame with pts := s1.assigned_pts frame,
                     duration := s1.assigned_duration frame estimate } : AVFrame)
    = { frame with pts := s2.assigned_pts frame, duration := s2.assigned_duration frame estimate }
  rw [hp s1 h1, hp s2 h2, hd s1 h1, hd s2 h2]

/-- C18 on the constructor's state and a mid-stream state, for a non-key frame
stamped 5000 without duration. -/
theorem trusted_mode_state_independent_witness :
    (VideoDecoder.receive (VideoDecoder.new true 0) ⟨5000, 5000, false, 0⟩ 3000).2
      = (VideoDecoder.receive ⟨true, 0, 9000, 6000⟩ ⟨5000, 5000, false, 0⟩ 3000).2 :=
  (trusted_mode_state_independent (VideoDecoder.new true 0) ⟨true, 0, 9000, 6000⟩
    ⟨5000, 5000, false, 0⟩ 3000 rfl rfl).1

/-! ## The lifecycle flags and the uninitialised member -/

section FlagLemmas

variable {T : Type}

theorem Queue.push_flags (q : Queue T) (x : T) :
    (q.push x).1.finished_ = q.finished_ ∧ (q.push x).1.quit_ = q.quit_ := by
  unfold Queue.push
  split_ifs <;> exact ⟨rfl, rfl⟩

theorem Queue.pop_flags (q : Queue T) (data : T) :
    (q.pop data).1.finished_ = q.finished_ ∧ (q.pop data).1.quit_ = q.quit_ := by
  rcases q with ⟨items, size_max, quit, fin⟩
  cases quit <;> cases fin <;> cases items <;> exact ⟨rfl, rfl⟩

theorem Queue.empty_flags (q : Queue T) :
    q.empty.finished_ = q.finished_ ∧ q.empty.quit_ = q.quit_ := by
  rw [Queue.empty_eq]
  exact ⟨rfl, rfl⟩

end FlagLemmas

section PreviousLemmas

/-- The first `receive` after construction does not depend on what `previous_pts_`
held. -/
theorem VideoDecoder.receive_new_previous (trust_dec_pts : Bool) (p1 p2 : Int) (frame : AVFrame)
    (estimate : Int) :
    (VideoDecoder.new trust_dec_pts p1).receive frame estimate
      = (VideoDecoder.new trust_dec_pts p2).receive frame estimate := by
  simp [VideoDecoder.receive, VideoDecoder.assigned_pts, VideoDecoder.assigned_duration,
    VideoDecoder.use_avframe_state, VideoDecoder.new]

/-- After a stream `previous_pts_` is the effective timestamp of its last frame, and
what it was before when the stream is empty. -/
theorem VideoDecoder.receiveAll_previous_pts (inputs : List (AVFrame × Int)) :
    ∀ d : VideoDecoder,
      (d.receiveAll inputs).1.previous_pts_ =
        (inputs.getLast?.map (fun i => VideoDecoder.avframe_pts i.1)).getD d.previous_pts_ := by
  induction inputs with
  | nil =>
    intro d
    rfl
  | cons i rest ih =>
    intro d
    rcases i with ⟨frame, estimate⟩
    rw [VideoDecoder.receiveAll_cons]
    show ((d.receive frame estimate).1.receiveAll rest).1.previous_pts_ = _
    rw [ih, VideoDecoder.receive_previous_pts]
    cases rest with
    | nil => rfl
    | cons j rest2 =>
      rw [List.getLast?_cons_cons, List.getLast?_eq_getLast _ (List.cons_ne_nil j rest2)]
      rfl

end PreviousLemmas

/-- C19. The lifecycle flags are monotonic: for every queue and every call (push,
pop, is_finished, finished, quit, empty), `finished_` true before stays true after and
`quit_` true before stays true after; `finished()` sets `finished_` and leaves `quit_`,
the items and the capacity alone, and `quit()` sets `quit_` and leaves `finished_`, the
items and the capacity alone. -/
theorem lifecycle_flags_monotonic {T : Type} (q : Queue T) (op : Op T) :
    (q.finished_ = true → (q.step op).finished_ = true) ∧
      (q.quit_ = true → (q.step op).quit_ = true) ∧
      (q.finished.finished_ = true ∧ q.finished.quit_ = q.quit_ ∧
        q.finished.queue_ = q.queue_ ∧ q.finished.size_max_ = q.size_max_) ∧
      (q.quit.quit_ = true ∧ q.quit.finished_ = q.finished_ ∧
        q.quit.queue_ = q.queue_ ∧ q.quit.size_max_ = q.size_max_) := by
  refine ⟨?_, ?_, ⟨rfl, rfl, rfl, rfl⟩, ⟨rfl, rfl, rfl, rfl⟩⟩
  · intro h
    cases op with
    | push x => exact (Queue.push_flags q x).1.trans h
    | pop data => exact (Queue.pop_flags q data).1.trans h
    | is_finished => exact h
    | finished => rfl
    | quit => exact h
    | empty => exact (Queue.empty_flags q).1.trans h
  · intro h
    cases op with
    | push x => exact (Queue.push_flags q x).2.trans h
    | pop data => exact (Queue.pop_flags q data).2.trans h
    | is_finished => exact h
    | finished => exact h
    | quit => rfl
    | empty => exact (Queue.empty_flags q).2.trans h

/-- C19 on a finished and quit queue holding two items: clearing it keeps both
flags. -/
theorem lifecycle_flags_monotonic_witness :
    (Queue.step (⟨[1, 2], 2, true, true⟩ : Queue Nat) Op.empty).finished_ = true ∧
      (Queue.step (⟨[1, 2], 2, true, true⟩ : Queue Nat) Op.empty).quit_ = true :=
  ⟨(lifecycle_flags_monotonic (⟨[1, 2], 2, true, true⟩ : Queue Nat) Op.empty).1 rfl,
    (lifecycle_flags_monotonic (⟨[1, 2], 2, true, true⟩ : Queue Nat) Op.empty).2.1 rfl⟩

/-- C20. `previous_pts_` is written before it is read: take any state reached from the
constructor (whatever `previous_pts_` held then, `p1`) by a stream of frames, and a
frame for which `use_avframe_state` is false there, the only case in which line 148
reads `previous_pts_`.  Then the stream is not empty, `previous_pts_` is the effective
timestamp of its last frame and `first_pts_` that of its first frame, and the run is the
same, state and frames, as from any other initial content `p2`.  For every stream the
frames written do not depend on the initial content, and `next_pts_` set implies that
`previous_pts_` has been written. -/
theorem previous_pts_written_before_read (trust_dec_pts : Bool) (p1 p2 : Int)
    (inputs : List (AVFrame × Int)) (frame : AVFrame)
    (hu : ((VideoDecoder.new trust_dec_pts p1).receiveAll inputs).1.use_avframe_state frame
      = false) :
    inputs ≠ [] ∧
      inputs.getLast?.map (fun i => VideoDecoder.avframe_pts i.1)
        = some ((VideoDecoder.new trust_dec_pts p1).receiveAll inputs).1.previous_pts_ ∧
      inputs.head?.map (fun i => VideoDecoder.avframe_pts i.1)
        = some ((VideoDecoder.new trust_dec_pts p1).receiveAll inputs).1.first_pts_ ∧
      (VideoDecoder.new trust_dec_pts p2).receiveAll inputs
        = (VideoDecoder.new trust_dec_pts p1).receiveAll inputs ∧
      (∀ stream : List (AVFrame × Int),
        ((VideoDecoder.new trust_dec_pts p2).receiveAll stream).2
          = ((VideoDecoder.new trust_dec_pts p1).receiveAll stream).2) ∧
      (∀ stream : List (AVFrame × Int),
        ((VideoDecoder.new trust_dec_pts p1).receiveAll stream).1.next_pts_ ≠ AV_NOPTS_VALUE →
          stream.getLast?.map (fun i => VideoDecoder.avframe_pts i.1)
            = some ((VideoDecoder.new trust_dec_pts p1).receiveAll stream).1.previous_pts_) := by
  have hrun : ∀ (i : AVFrame × Int) (rest : List (AVFrame × Int)),
      (VideoDecoder.new trust_dec_pts p2).receiveAll (i :: rest)
        = (VideoDecoder.new trust_dec_pts p1).receiveAll (i :: rest) := by
    intro i rest
    rcases i with ⟨f, e⟩
    rw [VideoDecoder.receiveAll_cons, VideoDecoder.receiveAll_cons,
      VideoDecoder.receive_new_previous trust_dec_pts p2 p1 f e]
  have hprev : ∀ (i : AVFrame × Int) (rest : List (AVFrame × Int)),
      (i :: rest).getLast?.map (fun i => VideoDecoder.avframe_pts i.1)
        = some ((VideoDecoder.new trust_dec_pts p1).receiveAll (i :: rest)).1.previous_pts_ := by
    intro i rest
    rw [VideoDecoder.receiveAll_previous_pts,
      List.getLast?_eq_getLast _ (List.cons_ne_nil i rest)]
    rfl
  refine ⟨?_, ?_, ?_, ?_, ?_, ?_⟩
  · intro hnil
    subst hnil
    simp [VideoDecoder.receiveAll, VideoDecoder.use_avframe_state, VideoDecoder.new] at hu
  · cases inputs with
    | nil => simp [VideoDecoder.receiveAll, VideoDecoder.use_avframe_state, VideoDecoder.new] at hu
    | cons i rest => exact hprev i rest
  · cases inputs with
    | nil => simp [VideoDecoder.receiveAll, VideoDecoder.use_avframe_state, VideoDecoder.new] at hu
    | cons i rest =>
      rcases i with ⟨f, e⟩
      rw [VideoDecoder.receiveAll_new_first_pts]
      rfl
  · cases inputs with
    | nil => simp [VideoDecoder.receiveAll, VideoDecoder.use_avframe_state, VideoDecoder.new] at hu
    | cons i rest => exact hrun i rest
  · intro stream
    cases stream with
    | nil => rfl
    | cons i rest => rw [hrun i rest]
  · intro stream hnext
    cases stream with
    | nil => exact absurd rfl hnext
    | cons i rest => exact hprev i rest

/-- C20 on the state after frames at 0 and 3000, reached from the constructor with
`previous_pts_` holding 12345, and a non-key frame stamped 6000: `previous_pts_` is
3000 and the run from initial content 0 is the same. -/
theorem previous_pts_written_before_read_witness :
    ([(⟨0, 0, true, 0⟩, 3000), ((⟨3000, 3000, false, 0⟩ : AVFrame), (3000 : Int))].getLast?.map
        (fun i => VideoDecoder.avframe_pts i.1)
      = some ((VideoDecoder.new false 12345).receiveAll
          [(⟨0, 0, true, 0⟩, 3000), (⟨3000, 3000, false, 0⟩, 3000)]).1.previous_pts_) ∧
      (VideoDecoder.new false 0).receiveAll [(⟨0, 0, true, 0⟩, 3000), (⟨3000, 3000, false, 0⟩, 3000)]
        = (VideoDecoder.new false 12345).receiveAll
            [(⟨0, 0, true, 0⟩, 3000), (⟨3000, 3000, false, 0⟩, 3000)] :=
  ⟨(previous_pts_written_before_read false 12345 0
      [(⟨0, 0, true, 0⟩, 3000), (⟨3000, 3000, false, 0⟩, 3000)] ⟨6000, 6000, false, 0⟩
      (by decide)).2.1,
    (previous_pts_written_before_read false 12345 0
      [(⟨0, 0, true, 0⟩, 3000), (⟨3000, 3000, false, 0⟩, 3000)] ⟨6000, 6000, false, 0⟩
      (by decide)).2.2.2.1⟩

end VideoCompare
